import Mathlib

/-!
Verification of the parameter-derivation module `vhsdecode/formats.py` of
ld-decode.  The module imports four baseline parameter dictionaries
(`RFParams_PAL`, `RFParams_NTSC`, `SysParams_PAL`, `SysParams_NTSC`) from the
upstream decoding library, shallow-copies each with `{**baseline}` and then
overrides selected keys with VHS-specific constants by item assignment.

We embed Python dictionaries as ordered association lists with unique-key
lookup semantics (`lookup` finds the first binding, `setItem` replaces the
value in place when the key is present and appends otherwise — exactly the
semantics of CPython dict item assignment), numeric values as exact rationals,
and composite (mutable, heap-allocated) values as references into a heap.
A small state model (`ModuleState`, `Stmt`, `run`) captures the module-level
evaluation: names bound to dictionary addresses in a heap, `{**src}`
allocating a fresh address, and item assignment mutating the addressed
dictionary in place.
-/

/-- A value stored in a parameter dictionary: an immediate numeric value
(Python ints and floats, embedded as exact rationals) or a reference to a
heap-allocated composite object (list, tuple, nested dict, ...). -/
inductive Value where
  | num : ℚ → Value
  | ref : Nat → Value
deriving DecidableEq, Repr

/-- A Python dictionary from field names to values: an ordered association
list with unique keys. -/
abbrev PDict := List (String × Value)

/-- Dictionary lookup `d[f]`: the first binding of `f`. -/
def lookup : PDict → String → Option Value
  | [], _ => none
  | (k, v) :: rest, f => if k = f then some v else lookup rest f

/-- Dictionary item assignment `d[k] = v` (as a value operation): replaces the
value at `k` in place, keeping its position, or appends `(k, v)` when `k` is
absent — CPython dict assignment semantics. -/
def setItem : PDict → String → Value → PDict
  | [], k, v => [(k, v)]
  | (k', v') :: rest, k, v =>
      if k' = k then (k, v) :: rest else (k', v') :: setItem rest k v

/-- `derive baseline overrides`: the pure content of the module's pattern
`d = {**baseline}` followed by `d[k] = v` for each `(k, v)` in `overrides`,
in order. -/
def derive (base : PDict) (ov : List (String × Value)) : PDict :=
  ov.foldl (fun d kv => setItem d kv.1 kv.2) base

/-- The keys of a dictionary, in order. -/
def keys (d : PDict) : List String := d.map Prod.fst

/-- The value an override table assigns to a field, `O[f]`: the last binding
of `f` in the table (the table applied as a sequence of assignments, later
writes win — for the tables in the module all keys are distinct). -/
def ovalue (ov : List (String × Value)) (f : String) : Option Value :=
  lookup ov.reverse f

/-- Left-biased choice on optional values. -/
def firstSome (a b : Option Value) : Option Value :=
  match a with
  | some v => some v
  | none => b

/-! ### The override tables of `formats.py`, transcribed from the source -/

/-- Overrides applied to `RFParams_PAL_VHS` after `{**RFParams_PAL}`. -/
def RFOverrides_PAL : List (String × Value) :=
  [ ("video_bpf_low", .num 3550000),
    ("video_bpf_high", .num 5200000),
    ("video_bpf_order", .num 1),
    ("video_lpf_freq", .num 3600000),
    ("color_under_carrier", .num (((625 * 25) * 40) + 1953)) ]

/-- Overrides applied to `RFParams_NTSC_VHS` after `{**RFParams_NTSC}`. -/
def RFOverrides_NTSC : List (String × Value) :=
  [ ("video_bpf_low", .num 3300000),
    ("video_bpf_high", .num 5000000),
    ("video_bpf_order", .num 2),
    ("video_lpf_freq", .num 3600000),
    ("color_under_carrier", .num ((525 * (30 / 1.001)) * 40)) ]

/-- Overrides applied to `SysParams_PAL_VHS` after `{**SysParams_PAL}`. -/
def SysOverrides_PAL : List (String × Value) :=
  [ ("ire0", .num 4100000),
    ("hz_ire", .num (700000 / 100)),
    ("max_ire", .num 100),
    ("burst_abs_ref", .num 750) ]

/-- Overrides applied to `SysParams_NTSC_VHS` after `{**SysParams_NTSC}`. -/
def SysOverrides_NTSC : List (String × Value) :=
  [ ("ire0", .num 3685000),
    ("hz_ire", .num (715000 / 100)),
    ("max_ire", .num 100),
    ("burst_abs_ref", .num 300) ]

/-- `RFParams_PAL_VHS`, as a function of the baseline dict imported from the
upstream library (the baseline itself lives outside this module). -/
def RFParams_PAL_VHS (RFParams_PAL : PDict) : PDict :=
  derive RFParams_PAL RFOverrides_PAL

/-- `RFParams_NTSC_VHS` as a function of its baseline. -/
def RFParams_NTSC_VHS (RFParams_NTSC : PDict) : PDict :=
  derive RFParams_NTSC RFOverrides_NTSC

/-- `SysParams_PAL_VHS` as a function of its baseline. -/
def SysParams_PAL_VHS (SysParams_PAL : PDict) : PDict :=
  derive SysParams_PAL SysOverrides_PAL

/-- `SysParams_NTSC_VHS` as a function of its baseline. -/
def SysParams_NTSC_VHS (SysParams_NTSC : PDict) : PDict :=
  derive SysParams_NTSC SysOverrides_NTSC

/-! ### The module-level state model

Python variables are bound to dictionary objects on a heap; `dst = {**src}`
allocates a fresh dictionary holding a shallow copy of `src`'s contents, and
`x[k] = v` mutates the dictionary `x` is bound to, in place. -/

/-- The state of the module's namespace: an environment binding names to
dictionary addresses, a heap of dictionary contents, and the next fresh
address. -/
structure ModuleState where
  env : String → Option Nat
  dictHeap : Nat → PDict
  next : Nat

/-- The statement forms used by `formats.py`: `dst = {**src}` and
`x[k] = v`. -/
inductive Stmt where
  | copy (dst src : String)
  | setitem (x k : String) (v : Value)

/-- Environment update. -/
def updEnv (e : String → Option Nat) (x : String) (a : Option Nat) :
    String → Option Nat :=
  fun y => if y = x then a else e y

/-- Heap update at one address. -/
def updHeap (h : Nat → PDict) (a : Nat) (d : PDict) : Nat → PDict :=
  fun b => if b = a then d else h b

/-- One step of module evaluation.  A lookup of an unbound name raises
(`none`, Python's `NameError`); nothing else can fail. -/
def exec (s : ModuleState) : Stmt → Option ModuleState
  | .copy dst src =>
    match s.env src with
    | some a => some ⟨updEnv s.env dst (some s.next),
        updHeap s.dictHeap s.next (s.dictHeap a), s.next + 1⟩
    | none => none
  | .setitem x k v =>
    match s.env x with
    | some a => some ⟨s.env,
        updHeap s.dictHeap a (setItem (s.dictHeap a) k v), s.next⟩
    | none => none

/-- Run a statement sequence. -/
def run : ModuleState → List Stmt → Option ModuleState
  | s, [] => some s
  | s, st :: rest =>
    match exec s st with
    | some s2 => run s2 rest
    | none => none

/-- The statement pattern `formats.py` uses for each of its four derived
dictionaries: one shallow copy followed by the override assignments. -/
def deriveProg (dst src : String) (ov : List (String × Value)) : List Stmt :=
  Stmt.copy dst src :: ov.map (fun kv => Stmt.setitem dst kv.1 kv.2)

/-- The dictionary contents a name currently denotes. -/
def readDict (s : ModuleState) (x : String) : Option PDict :=
  (s.env x).map s.dictHeap

/-- A heap of composite (mutable) objects that `Value.ref` addresses point
into.  The module's shallow copies never copy these, so a copied dictionary
shares them with its baseline. -/
def CompHeap : Type := Nat → List ℚ

/-- In-place mutation of the composite object at address `n`. -/
def updComp (H : CompHeap) (n : Nat) (xs : List ℚ) : CompHeap :=
  fun m => if m = n then xs else H m

/-- Reading a dictionary field through the composite heap: a `ref` field
dereferences to the current contents of the addressed object. -/
def readComp (H : CompHeap) (d : PDict) (f : String) : Option (List ℚ) :=
  match lookup d f with
  | some (.ref n) => some (H n)
  | _ => none

/-- A small concrete module state used to exercise the state-model theorems:
one baseline dictionary named "B" at address 0. -/
def sampleState : ModuleState :=
  ⟨fun y => if y = "B" then some 0 else none, fun _ => [("x", Value.num 1)], 1⟩

/-! ### Basic lookup lemmas -/

theorem lookup_setItem_self (d : PDict) (k : String) (v : Value) :
    lookup (setItem d k v) k = some v := by
  induction d with
  | nil => simp [setItem, lookup]
  | cons hd tl ih =>
    obtain ⟨k', v'⟩ := hd
    by_cases h : k' = k
    · simp [setItem, h, lookup]
    · simp [setItem, h, lookup, ih]

theorem lookup_setItem_ne (d : PDict) (k f : String) (v : Value) (h : k ≠ f) :
    lookup (setItem d k v) f = lookup d f := by
  induction d with
  | nil => simp [setItem, lookup, h]
  | cons hd tl ih =>
    obtain ⟨k', v'⟩ := hd
    by_cases h2 : k' = k
    · subst h2; simp [setItem, lookup, h]
    · simp [setItem, h2, lookup, ih]

theorem lookup_append (d1 d2 : PDict) (f : String) :
    lookup (d1 ++ d2) f = firstSome (lookup d1 f) (lookup d2 f) := by
  induction d1 with
  | nil => simp [lookup, firstSome]
  | cons hd tl ih =>
    obtain ⟨k, v⟩ := hd
    by_cases h : k = f
    · simp [lookup, h, firstSome]
    · simp [lookup, h, ih]

theorem firstSome_assoc (a b c : Option Value) :
    firstSome (firstSome a b) c = firstSome a (firstSome b c) := by
  cases a <;> simp [firstSome]

/-- The central characterisation: a lookup in a derived dictionary returns the
last override for the field when one exists, and the baseline binding
otherwise. -/
theorem lookup_derive (ov : List (String × Value)) (base : PDict) (f : String) :
    lookup (derive base ov) f = firstSome (ovalue ov f) (lookup base f) := by
  induction ov generalizing base with
  | nil => simp [derive, ovalue, lookup, firstSome]
  | cons hd tl ih =>
    obtain ⟨k, v⟩ := hd
    show lookup (derive (setItem base k v) tl) f = _
    rw [ih]
    unfold ovalue
    rw [List.reverse_cons, lookup_append]
    by_cases h : k = f
    · subst h
      rw [lookup_setItem_self, firstSome_assoc]
      simp [lookup, firstSome]
    · rw [lookup_setItem_ne _ _ _ _ h, firstSome_assoc]
      simp [lookup, h, firstSome]

theorem lookup_eq_none_of_not_mem_keys (d : PDict) (f : String)
    (h : f ∉ keys d) : lookup d f = none := by
  induction d with
  | nil => simp [lookup]
  | cons hd tl ih =>
    obtain ⟨k, v⟩ := hd
    simp only [keys, List.map_cons, List.mem_cons] at h
    push_neg at h
    simp only [lookup]
    rw [if_neg (Ne.symm h.1)]
    exact ih h.2

theorem mem_keys_of_lookup_eq_some (d : PDict) (f : String) (v : Value)
    (h : lookup d f = some v) : f ∈ keys d := by
  induction d with
  | nil => simp [lookup] at h
  | cons hd tl ih =>
    obtain ⟨k, v'⟩ := hd
    simp only [lookup] at h
    by_cases hk : k = f
    · subst hk; simp [keys]
    · rw [if_neg hk] at h
      simp only [keys, List.map_cons, List.mem_cons]
      exact Or.inr (ih h)

theorem lookup_ne_none_of_mem_keys (d : PDict) (f : String)
    (h : f ∈ keys d) : lookup d f ≠ none := by
  induction d with
  | nil => simp [keys] at h
  | cons hd tl ih =>
    obtain ⟨k, v⟩ := hd
    by_cases hk : k = f
    · simp [lookup, hk]
    · simp only [keys, List.map_cons, List.mem_cons] at h
      rcases h with h | h
      · exact absurd h.symm hk
      · simp only [lookup]
        rw [if_neg hk]
        exact ih h

theorem mem_keys_iff_lookup (d : PDict) (f : String) :
    f ∈ keys d ↔ lookup d f ≠ none :=
  ⟨lookup_ne_none_of_mem_keys d f, fun h => by
    by_contra hm
    exact h (lookup_eq_none_of_not_mem_keys d f hm)⟩

theorem mem_keys_iff_ovalue (ov : List (String × Value)) (f : String) :
    f ∈ keys ov ↔ ovalue ov f ≠ none := by
  rw [ovalue, ← mem_keys_iff_lookup]
  simp [keys, List.map_reverse, List.mem_reverse]

/-- Override precedence, as a reusable lemma. -/
theorem lookup_derive_of_ovalue (base : PDict) (ov : List (String × Value))
    (f : String) (v : Value) (h : ovalue ov f = some v) :
    lookup (derive base ov) f = some v := by
  rw [lookup_derive, h]
  rfl

/-- Inheritance of non-overridden fields, as a reusable lemma. -/
theorem lookup_derive_not_mem (base : PDict) (ov : List (String × Value))
    (f : String) (h : f ∉ keys ov) :
    lookup (derive base ov) f = lookup base f := by
  rw [lookup_derive]
  have h2 : ovalue ov f = none := by
    apply lookup_eq_none_of_not_mem_keys
    simpa [keys, List.map_reverse, List.mem_reverse] using h
  rw [h2]
  rfl

/-! ### State-model lemmas -/

theorem updHeap_same (h : Nat → PDict) (a : Nat) (d : PDict) :
    updHeap h a d a = d := by simp [updHeap]

theorem updHeap_ne (h : Nat → PDict) (a b : Nat) (d : PDict) (hne : b ≠ a) :
    updHeap h a d b = h b := by simp [updHeap, hne]

theorem updHeap_updHeap_same (h : Nat → PDict) (a : Nat) (d d' : PDict) :
    updHeap (updHeap h a d) a d' = updHeap h a d' := by
  funext b
  by_cases hb : b = a <;> simp [updHeap, hb]

/-- Running the override assignments of a derivation updates exactly the
dictionary the target name is bound to, folding the assignments into
`derive`. -/
theorem run_setitems (ov : List (String × Value)) (s : ModuleState)
    (dst : String) (a : Nat) (h : s.env dst = some a) :
    run s (ov.map (fun kv => Stmt.setitem dst kv.1 kv.2)) =
      some ⟨s.env, updHeap s.dictHeap a (derive (s.dictHeap a) ov), s.next⟩ := by
  induction ov generalizing s with
  | nil =>
    simp only [List.map_nil, run, derive, List.foldl_nil]
    have hh : updHeap s.dictHeap a (s.dictHeap a) = s.dictHeap := by
      funext b
      by_cases hb : b = a <;> simp [updHeap, hb]
    rw [hh]
  | cons hd tl ih =>
    obtain ⟨k, v⟩ := hd
    simp only [List.map_cons, run, exec, h]
    rw [ih ⟨s.env, updHeap s.dictHeap a (setItem (s.dictHeap a) k v), s.next⟩ h]
    simp only [updHeap_same, updHeap_updHeap_same]
    rfl

/-- Running a full derivation: the source dictionary keeps its address, the
target name is bound to a fresh address holding `derive` of the source
contents. -/
theorem run_deriveProg (s : ModuleState) (dst src : String) (a : Nat)
    (ov : List (String × Value)) (h : s.env src = some a) :
    run s (deriveProg dst src ov) =
      some ⟨updEnv s.env dst (some s.next),
        updHeap s.dictHeap s.next (derive (s.dictHeap a) ov), s.next + 1⟩ := by
  simp only [deriveProg, run, exec, h]
  have henv : (updEnv s.env dst (some s.next)) dst = some s.next := by
    simp [updEnv]
  rw [run_setitems ov _ dst s.next henv]
  simp only [updHeap_same, updHeap_updHeap_same]

/-! ### Permutation lemmas for association lists with distinct keys -/

theorem mem_of_lookup_eq_some (d : PDict) (f : String) (v : Value)
    (h : lookup d f = some v) : (f, v) ∈ d := by
  induction d with
  | nil => simp [lookup] at h
  | cons hd tl ih =>
    obtain ⟨k, w⟩ := hd
    simp only [lookup] at h
    by_cases hk : k = f
    · subst hk
      rw [if_pos rfl] at h
      obtain rfl := Option.some.inj h
      exact List.mem_cons_self _ _
    · rw [if_neg hk] at h
      exact List.mem_cons_of_mem _ (ih h)

theorem lookup_eq_some_of_mem_nodup (d : PDict) (f : String) (v : Value)
    (hnd : (keys d).Nodup) (h : (f, v) ∈ d) : lookup d f = some v := by
  induction d with
  | nil => simp at h
  | cons hd tl ih =>
    obtain ⟨k, w⟩ := hd
    simp only [List.mem_cons] at h
    simp only [keys, List.map_cons, List.nodup_cons] at hnd
    rcases h with h | h
    · rw [Prod.mk.injEq] at h
      obtain ⟨rfl, rfl⟩ := h
      simp [lookup]
    · by_cases hk : k = f
      · subst hk
        exact absurd (List.mem_map_of_mem Prod.fst h) hnd.1
      · simp only [lookup]
        rw [if_neg hk]
        exact ih hnd.2 h

/-- With pairwise-distinct keys, lookup only depends on the set of bindings,
not on their order. -/
theorem lookup_perm (d1 d2 : PDict) (hp : d1.Perm d2)
    (hnd : (keys d1).Nodup) (f : String) : lookup d1 f = lookup d2 f := by
  have hkp : (keys d1).Perm (keys d2) := hp.map Prod.fst
  have hnd2 : (keys d2).Nodup := hkp.nodup_iff.mp hnd
  cases h1 : lookup d1 f with
  | none =>
    have hm1 : f ∉ keys d1 := fun hm => lookup_ne_none_of_mem_keys d1 f hm h1
    have hm2 : f ∉ keys d2 := fun hm => hm1 (hkp.mem_iff.mpr hm)
    rw [lookup_eq_none_of_not_mem_keys d2 f hm2]
  | some v =>
    have hm := mem_of_lookup_eq_some d1 f v h1
    exact (lookup_eq_some_of_mem_nodup d2 f v hnd2 (hp.mem_iff.mp hm)).symm

/-! ### The claims -/

/-- Claim C1 (override precedence): for every baseline mapping, every override
table, and every field that is a key of the table, the derived dictionary maps
that field to the override value, regardless of whether or what the baseline
previously bound it to; instantiated to the four derived dictionaries of the
module, every overridden key holds exactly its override value. -/
theorem claim_C1 (base b1 b2 b3 b4 : PDict) (ov : List (String × Value))
    (f g1 g2 g3 g4 : String) (v w1 w2 w3 w4 : Value)
    (h : ovalue ov f = some v)
    (h1 : ovalue RFOverrides_PAL g1 = some w1)
    (h2 : ovalue RFOverrides_NTSC g2 = some w2)
    (h3 : ovalue SysOverrides_PAL g3 = some w3)
    (h4 : ovalue SysOverrides_NTSC g4 = some w4) :
    lookup (derive base ov) f = some v ∧
    lookup (RFParams_PAL_VHS b1) g1 = some w1 ∧
    lookup (RFParams_NTSC_VHS b2) g2 = some w2 ∧
    lookup (SysParams_PAL_VHS b3) g3 = some w3 ∧
    lookup (SysParams_NTSC_VHS b4) g4 = some w4 :=
  ⟨lookup_derive_of_ovalue base ov f v h,
   lookup_derive_of_ovalue b1 RFOverrides_PAL g1 w1 h1,
   lookup_derive_of_ovalue b2 RFOverrides_NTSC g2 w2 h2,
   lookup_derive_of_ovalue b3 SysOverrides_PAL g3 w3 h3,
   lookup_derive_of_ovalue b4 SysOverrides_NTSC g4 w4 h4⟩

/-- Witness for C1: a baseline value `7` for `video_bpf_low` is replaced by
the override `3550000`, and one overridden key of each of the four tables is
checked on a concrete baseline. -/
theorem claim_C1_witness :
    (ovalue [("video_bpf_low", Value.num 7)] "video_bpf_low"
        = some (Value.num 7) ∧
     ovalue RFOverrides_PAL "video_bpf_low" = some (Value.num 3550000) ∧
     ovalue RFOverrides_NTSC "video_bpf_order" = some (Value.num 2) ∧
     ovalue SysOverrides_PAL "ire0" = some (Value.num 4100000) ∧
     ovalue SysOverrides_NTSC "burst_abs_ref" = some (Value.num 300)) ∧
    (lookup (derive [("video_bpf_low", Value.num 3)]
        [("video_bpf_low", Value.num 7)]) "video_bpf_low"
        = some (Value.num 7) ∧
     lookup (RFParams_PAL_VHS []) "video_bpf_low" = some (Value.num 3550000) ∧
     lookup (RFParams_NTSC_VHS []) "video_bpf_order" = some (Value.num 2) ∧
     lookup (SysParams_PAL_VHS []) "ire0" = some (Value.num 4100000) ∧
     lookup (SysParams_NTSC_VHS []) "burst_abs_ref" = some (Value.num 300)) :=
  ⟨⟨rfl, rfl, rfl, rfl, rfl⟩,
   claim_C1 [("video_bpf_low", Value.num 3)] [] [] [] []
     [("video_bpf_low", Value.num 7)]
     "video_bpf_low" "video_bpf_low" "video_bpf_order" "ire0" "burst_abs_ref"
     (Value.num 7) (Value.num 3550000) (Value.num 2) (Value.num 4100000)
     (Value.num 300) rfl rfl rfl rfl rfl⟩

/-- Claim C2 (completeness / inheritance): every baseline field not listed in
the override table is carried into the derived dictionary with its baseline
value unchanged (and remains present). -/
theorem claim_C2 (base : PDict) (ov : List (String × Value)) (f : String)
    (hB : f ∈ keys base) (hO : f ∉ keys ov) :
    lookup (derive base ov) f = lookup base f ∧ f ∈ keys (derive base ov) := by
  have he := lookup_derive_not_mem base ov f hO
  refine ⟨he, ?_⟩
  rw [mem_keys_iff_lookup, he]
  exact lookup_ne_none_of_mem_keys base f hB

/-- Witness for C2: an unrelated field `foo` survives the PAL RF overrides
unchanged. -/
theorem claim_C2_witness :
    ("foo" ∈ keys [("foo", Value.num 42)] ∧
     "foo" ∉ keys RFOverrides_PAL) ∧
    (lookup (derive [("foo", Value.num 42)] RFOverrides_PAL) "foo"
        = lookup [("foo", Value.num 42)] "foo" ∧
     "foo" ∈ keys (derive [("foo", Value.num 42)] RFOverrides_PAL)) :=
  ⟨⟨by decide, by decide⟩,
   claim_C2 [("foo", Value.num 42)] RFOverrides_PAL "foo"
     (by decide) (by decide)⟩

/-- Claim C7 (domain invariant): a field is a key of the derived dictionary
exactly when it is a key of the baseline or of the override table — no
baseline field is dropped and no field outside the overrides is added. -/
theorem claim_C7 (base : PDict) (ov : List (String × Value)) (f : String) :
    f ∈ keys (derive base ov) ↔ f ∈ keys base ∨ f ∈ keys ov := by
  rw [mem_keys_iff_lookup, lookup_derive, mem_keys_iff_lookup,
    mem_keys_iff_ovalue]
  cases hov : ovalue ov f <;> simp [firstSome, hov]

/-- Claim C8 (order independence): with pairwise-distinct override keys,
applying the override pairs in any permuted order yields the same derived
mapping. -/
theorem claim_C8 (base : PDict) (ov ov' : List (String × Value))
    (hnd : (keys ov).Nodup) (hp : ov'.Perm ov) (f : String) :
    lookup (derive base ov') f = lookup (derive base ov) f := by
  rw [lookup_derive, lookup_derive]
  have hrev : (ov'.reverse).Perm ov.reverse :=
    (ov'.reverse_perm.trans hp).trans ov.reverse_perm.symm
  have hndrev : (keys ov'.reverse).Nodup := by
    have hknd : (keys ov.reverse).Nodup := by
      simpa [keys, List.map_reverse, List.nodup_reverse] using hnd
    exact ((hrev.map Prod.fst).nodup_iff).mpr hknd
  unfold ovalue
  rw [lookup_perm ov'.reverse ov.reverse hrev hndrev f]

/-- Witness for C8: swapping two distinct-keyed overrides leaves the derived
mapping unchanged at a looked-up field. -/
theorem claim_C8_witness :
    ((keys [("a", Value.num 1), ("b", Value.num 2)]).Nodup ∧
     ([("b", Value.num 2), ("a", Value.num 1)]).Perm
       [("a", Value.num 1), ("b", Value.num 2)]) ∧
    lookup (derive [("a", Value.num 0)]
        [("b", Value.num 2), ("a", Value.num 1)]) "a" =
      lookup (derive [("a", Value.num 0)]
        [("a", Value.num 1), ("b", Value.num 2)]) "a" :=
  ⟨⟨by decide, List.Perm.swap _ _ _⟩,
   claim_C8 [("a", Value.num 0)] [("a", Value.num 1), ("b", Value.num 2)]
     [("b", Value.num 2), ("a", Value.num 1)] (by decide)
     (List.Perm.swap _ _ _) "a"⟩

/-- Counterexample for C3 as stated: on a concrete baseline carrying
`foo = 42`, the derived standard-A RF dictionary maps `color_under_carrier`
to `626953` (the value of `((625 * 25) * 40) + 1953`), not to the claimed
`1954453`. -/
theorem claim_C3_counterexample :
    lookup (RFParams_PAL_VHS [("foo", Value.num 42)]) "color_under_carrier"
        = some (Value.num 626953) ∧
    lookup (RFParams_PAL_VHS [("foo", Value.num 42)]) "color_under_carrier"
        ≠ some (Value.num 1954453) := by
  have h : lookup (derive [("foo", Value.num 42)] RFOverrides_PAL)
      "color_under_carrier" = some (Value.num (((625 * 25) * 40) + 1953)) :=
    lookup_derive_of_ovalue _ _ _ _ rfl
  constructor
  · show lookup (derive [("foo", Value.num 42)] RFOverrides_PAL)
        "color_under_carrier" = some (Value.num 626953)
    rw [h]
    simp only [Option.some.injEq, Value.num.injEq]
    norm_num
  · show lookup (derive [("foo", Value.num 42)] RFOverrides_PAL)
        "color_under_carrier" ≠ some (Value.num 1954453)
    rw [h]
    simp only [ne_eq, Option.some.injEq, Value.num.injEq]
    norm_num

/-- Claim C3 (amended): for every baseline RF mapping with any prior
band-pass values and carrying an unrelated field `foo = 42`, the derived
standard-A set has `video_bpf_low = 3550000`, `video_bpf_high = 5200000`,
`video_bpf_order = 1`, `color_under_carrier = 626953` (not the claimed
1954453), and every non-overridden baseline field — `foo = 42` in
particular — unchanged. -/
theorem claim_C3 (base : PDict) (f : String)
    (hfoo : lookup base "foo" = some (Value.num 42))
    (hf : f ∉ keys RFOverrides_PAL) :
    lookup (RFParams_PAL_VHS base) "video_bpf_low" = some (Value.num 3550000) ∧
    lookup (RFParams_PAL_VHS base) "video_bpf_high"
        = some (Value.num 5200000) ∧
    lookup (RFParams_PAL_VHS base) "video_bpf_order" = some (Value.num 1) ∧
    lookup (RFParams_PAL_VHS base) "color_under_carrier"
        = some (Value.num 626953) ∧
    lookup (RFParams_PAL_VHS base) "foo" = some (Value.num 42) ∧
    lookup (RFParams_PAL_VHS base) f = lookup base f := by
  refine ⟨lookup_derive_of_ovalue _ _ _ _ rfl,
    lookup_derive_of_ovalue _ _ _ _ rfl,
    lookup_derive_of_ovalue _ _ _ _ rfl, ?_, ?_,
    lookup_derive_not_mem _ _ _ hf⟩
  · show lookup (derive base RFOverrides_PAL) "color_under_carrier"
        = some (Value.num 626953)
    rw [lookup_derive_of_ovalue base RFOverrides_PAL "color_under_carrier"
      (Value.num (((625 * 25) * 40) + 1953)) rfl]
    simp only [Option.some.injEq, Value.num.injEq]
    norm_num
  · show lookup (derive base RFOverrides_PAL) "foo" = some (Value.num 42)
    rw [lookup_derive_not_mem base RFOverrides_PAL "foo" (by decide)]
    exact hfoo

/-- Witness for C3 (amended) on a baseline with prior band-pass values and
`foo = 42`. -/
theorem claim_C3_witness :
    (lookup [("foo", Value.num 42), ("video_bpf_low", Value.num 1),
        ("video_bpf_high", Value.num 2)] "foo" = some (Value.num 42) ∧
     "bar" ∉ keys RFOverrides_PAL) ∧
    (lookup (RFParams_PAL_VHS [("foo", Value.num 42),
        ("video_bpf_low", Value.num 1), ("video_bpf_high", Value.num 2)])
        "video_bpf_low" = some (Value.num 3550000) ∧
     lookup (RFParams_PAL_VHS [("foo", Value.num 42),
        ("video_bpf_low", Value.num 1), ("video_bpf_high", Value.num 2)])
        "video_bpf_high" = some (Value.num 5200000) ∧
     lookup (RFParams_PAL_VHS [("foo", Value.num 42),
        ("video_bpf_low", Value.num 1), ("video_bpf_high", Value.num 2)])
        "video_bpf_order" = some (Value.num 1) ∧
     lookup (RFParams_PAL_VHS [("foo", Value.num 42),
        ("video_bpf_low", Value.num 1), ("video_bpf_high", Value.num 2)])
        "color_under_carrier" = some (Value.num 626953) ∧
     lookup (RFParams_PAL_VHS [("foo", Value.num 42),
        ("video_bpf_low", Value.num 1), ("video_bpf_high", Value.num 2)])
        "foo" = some (Value.num 42) ∧
     lookup (RFParams_PAL_VHS [("foo", Value.num 42),
        ("video_bpf_low", Value.num 1), ("video_bpf_high", Value.num 2)])
        "bar" = lookup [("foo", Value.num 42), ("video_bpf_low", Value.num 1),
        ("video_bpf_high", Value.num 2)] "bar") :=
  ⟨⟨rfl, by decide⟩,
   claim_C3 [("foo", Value.num 42), ("video_bpf_low", Value.num 1),
     ("video_bpf_high", Value.num 2)] "bar" rfl (by decide)⟩

/-- Claim C4: for every baseline, the derived standard-A RF dictionary maps
`color_under_carrier` to `((625 * 25) * 40) + 1953`, which is the integer
626953, and the derived standard-B RF dictionary maps it to the value of the
expression `(525 * (30 / 1.001)) * 40`, equal at full precision to the exact
rational `630000000 / 1001` (values modelled as exact rationals). -/
theorem claim_C4 (bPAL bNTSC : PDict) :
    lookup (RFParams_PAL_VHS bPAL) "color_under_carrier"
        = some (Value.num (((625 * 25) * 40) + 1953)) ∧
    (((625 * 25) * 40 : ℚ) + 1953) = 626953 ∧
    lookup (RFParams_NTSC_VHS bNTSC) "color_under_carrier"
        = some (Value.num ((525 * (30 / 1.001)) * 40)) ∧
    ((525 * (30 / 1.001)) * 40 : ℚ) = 630000000 / 1001 :=
  ⟨lookup_derive_of_ovalue _ _ _ _ rfl, by norm_num,
   lookup_derive_of_ovalue _ _ _ _ rfl, by norm_num⟩

/-- Claim C5: for every baseline, the derived standard-B System dictionary has
`ire0 = 3685000`, `hz_ire = 715000 / 100 = 7150`, `max_ire = 100`, and
`burst_abs_ref = 300`. -/
theorem claim_C5 (base : PDict) :
    lookup (SysParams_NTSC_VHS base) "ire0" = some (Value.num 3685000) ∧
    lookup (SysParams_NTSC_VHS base) "hz_ire"
        = some (Value.num (715000 / 100)) ∧
    (715000 / 100 : ℚ) = 7150 ∧
    lookup (SysParams_NTSC_VHS base) "max_ire" = some (Value.num 100) ∧
    lookup (SysParams_NTSC_VHS base) "burst_abs_ref" = some (Value.num 300) :=
  ⟨lookup_derive_of_ovalue _ _ _ _ rfl,
   lookup_derive_of_ovalue _ _ _ _ rfl, by norm_num,
   lookup_derive_of_ovalue _ _ _ _ rfl,
   lookup_derive_of_ovalue _ _ _ _ rfl⟩

/-- Claim C6 (non-destructive derivation and independence): running the
module's copy-then-override pattern leaves the baseline dictionary
field-for-field unchanged, binds the derived name to a genuinely fresh
address holding `derive` of the baseline contents, and thereafter a top-level
item assignment through the baseline name does not change the derived
dictionary, while an item assignment through the derived name changes neither
the baseline nor any other dictionary. -/
theorem claim_C6 (s : ModuleState) (dst src : String) (a : Nat)
    (ov : List (String × Value)) (h : s.env src = some a) (ha : a < s.next)
    (hds : src ≠ dst) :
    ∃ s1, run s (deriveProg dst src ov) = some s1 ∧
      (∀ f, lookup (s1.dictHeap a) f = lookup (s.dictHeap a) f) ∧
      s1.env src = some a ∧
      s1.env dst = some s.next ∧
      s.next ≠ a ∧
      s1.dictHeap s.next = derive (s.dictHeap a) ov ∧
      (∀ k v s2, exec s1 (.setitem src k v) = some s2 →
          s2.dictHeap s.next = s1.dictHeap s.next) ∧
      (∀ k v s2, exec s1 (.setitem dst k v) = some s2 →
          s2.dictHeap a = s1.dictHeap a ∧
          ∀ b, b ≠ s.next → s2.dictHeap b = s1.dictHeap b) := by
  have hna : s.next ≠ a := Ne.symm (Nat.ne_of_lt ha)
  refine ⟨⟨updEnv s.env dst (some s.next),
      updHeap s.dictHeap s.next (derive (s.dictHeap a) ov), s.next + 1⟩,
    run_deriveProg s dst src a ov h, ?_, ?_, ?_, hna, ?_, ?_, ?_⟩
  · intro f
    dsimp only
    rw [updHeap_ne s.dictHeap s.next a _ (Nat.ne_of_lt ha)]
  · dsimp only
    rw [updEnv, if_neg hds]
    exact h
  · dsimp only
    rw [updEnv, if_pos rfl]
  · dsimp only
    exact updHeap_same _ _ _
  · intro k v s2 hs2
    have henv : (updEnv s.env dst (some s.next)) src = some a := by
      rw [updEnv, if_neg hds]
      exact h
    simp only [exec, henv] at hs2
    obtain rfl := Option.some.inj hs2
    dsimp only
    exact updHeap_ne _ a s.next _ hna
  · intro k v s2 hs2
    have henv : (updEnv s.env dst (some s.next)) dst = some s.next := by
      rw [updEnv, if_pos rfl]
    simp only [exec, henv] at hs2
    obtain rfl := Option.some.inj hs2
    constructor
    · dsimp only
      exact updHeap_ne _ s.next a _ (Nat.ne_of_lt ha)
    · intro b hb
      dsimp only
      exact updHeap_ne _ s.next b _ hb

/-- Witness for C6 on a one-field baseline at address 0 and a single
override. -/
theorem claim_C6_witness :
    (sampleState.env "B" = some 0 ∧ 0 < 1 ∧ "B" ≠ "D") ∧
    (∃ s1, run sampleState (deriveProg "D" "B" [("y", Value.num 2)])
        = some s1 ∧
      (∀ f, lookup (s1.dictHeap 0) f = lookup [("x", Value.num 1)] f) ∧
      s1.env "B" = some 0 ∧
      s1.env "D" = some 1 ∧
      (1 : Nat) ≠ 0 ∧
      s1.dictHeap 1 = derive [("x", Value.num 1)] [("y", Value.num 2)] ∧
      (∀ k v s2, exec s1 (.setitem "B" k v) = some s2 →
          s2.dictHeap 1 = s1.dictHeap 1) ∧
      (∀ k v s2, exec s1 (.setitem "D" k v) = some s2 →
          s2.dictHeap 0 = s1.dictHeap 0 ∧
          ∀ b, b ≠ 1 → s2.dictHeap b = s1.dictHeap b)) :=
  ⟨⟨rfl, by decide, by decide⟩,
   claim_C6 sampleState "D" "B" 0 [("y", Value.num 2)] rfl
     (by decide) (by decide)⟩

/-- Claim C9 (the copy is shallow): a baseline field holding a reference to a
composite object that is not overridden is carried into the derived
dictionary as the very same reference, so an in-place mutation of that
composite object is observed identically through the derived dictionary and
through the baseline — top-level independence does not extend to nested
mutable values. -/
theorem claim_C9 (base : PDict) (ov : List (String × Value)) (f : String)
    (n : Nat) (hf : lookup base f = some (Value.ref n)) (hnov : f ∉ keys ov)
    (H : CompHeap) (xs : List ℚ) :
    lookup (derive base ov) f = some (Value.ref n) ∧
    readComp (updComp H n xs) (derive base ov) f = some xs ∧
    readComp (updComp H n xs) base f = some xs := by
  have h1 : lookup (derive base ov) f = lookup base f :=
    lookup_derive_not_mem base ov f hnov
  refine ⟨by rw [h1, hf], ?_, ?_⟩
  · unfold readComp
    rw [h1, hf]
    simp [updComp]
  · unfold readComp
    rw [hf]
    simp [updComp]

/-- Witness for C9: a `ref`-valued field `comp` shared between baseline and
derived dictionary observes the same in-place mutation through both. -/
theorem claim_C9_witness :
    (lookup [("comp", Value.ref 0)] "comp" = some (Value.ref 0) ∧
     "comp" ∉ keys [("a", Value.num 1)]) ∧
    (lookup (derive [("comp", Value.ref 0)] [("a", Value.num 1)]) "comp"
        = some (Value.ref 0) ∧
     readComp (updComp (fun _ => []) 0 [3])
        (derive [("comp", Value.ref 0)] [("a", Value.num 1)]) "comp"
        = some [3] ∧
     readComp (updComp (fun _ => []) 0 [3]) [("comp", Value.ref 0)] "comp"
        = some [3]) :=
  ⟨⟨rfl, by decide⟩,
   claim_C9 [("comp", Value.ref 0)] [("a", Value.num 1)] "comp" 0 rfl
     (by decide) (fun _ => []) [3]⟩

/-- Claim C10 (derivation never fails, no validation): for every baseline
dictionary — including one missing any or all overridden fields — the
copy-then-override program runs to completion (never `none`), and an override
key absent from the baseline is silently added as a new field holding the
override value. -/
theorem claim_C10 (s : ModuleState) (dst src : String) (a : Nat)
    (ov : List (String × Value)) (h : s.env src = some a)
    (base : PDict) (f : String) (v : Value)
    (hnone : lookup base f = none) (hov : ovalue ov f = some v) :
    (∃ s1, run s (deriveProg dst src ov) = some s1) ∧
    f ∉ keys base ∧
    lookup (derive base ov) f = some v ∧
    f ∈ keys (derive base ov) := by
  have hlk := lookup_derive_of_ovalue base ov f v hov
  refine ⟨⟨_, run_deriveProg s dst src a ov h⟩, ?_, hlk, ?_⟩
  · intro hm
    exact lookup_ne_none_of_mem_keys base f hm hnone
  · rw [mem_keys_iff_lookup, hlk]
    simp

/-- Witness for C10: deriving from an empty baseline succeeds and adds the
overridden field `video_bpf_low`. -/
theorem claim_C10_witness :
    (sampleState.env "B" = some 0 ∧
     lookup [] "video_bpf_low" = none ∧
     ovalue RFOverrides_PAL "video_bpf_low" = some (Value.num 3550000)) ∧
    ((∃ s1, run sampleState (deriveProg "D" "B" RFOverrides_PAL) = some s1) ∧
     "video_bpf_low" ∉ keys ([] : PDict) ∧
     lookup (derive [] RFOverrides_PAL) "video_bpf_low"
        = some (Value.num 3550000) ∧
     "video_bpf_low" ∈ keys (derive [] RFOverrides_PAL)) :=
  ⟨⟨rfl, rfl, rfl⟩,
   claim_C10 sampleState "D" "B" 0 RFOverrides_PAL rfl []
     "video_bpf_low" (Value.num 3550000) rfl rfl⟩
